import Mathlib

/-!
Shallow embedding of `sdk/go/common/encoding/ast.go` (package `encoding`):
a YAML-configuration AST editor offering `HasKey`, `SetConfig` and
`RemoveConfig` over a tree of mapping / sequence / scalar nodes, with the
reserved single-entry `secure` mapping shape marking secret values.

Modelling conventions:
- go-yaml AST nodes become the inductive `Node`.  Column/position and
  flow-style data are carried by the Go nodes purely for re-emission
  formatting; no operation modelled here branches on them, so they are
  dropped.  A `MappingNode` keeps its start-token text (`tok`) because
  `newMappingNode` stores a caller-chosen literal there (notably `"-"`).
- Go mutates nodes in place through pointers; the tree is threaded
  functionally instead, and a mutation of a child fetched from a container
  is written back with `replaceChild`/`setFirst`, which mirrors pointer
  update for a tree-shaped document (the editor never aliases nodes).
- Fallible Go functions return `Res`: `ok`, `err` (a returned `error`), or
  `fatal` (a Go panic: failed type assertion, `contract.Assertf`,
  `contract.Failf`).  When the Go code returns an error after having
  already mutated the tree, the partial mutation is not observable through
  any theorem below, so `err` carries no tree.
- `config.Key`, `config.ParseKeyPath`, `config.Value` and
  `config.AdjustObjectValue` live in packages outside this file's source.
  Their results are modelled as inputs (`ParsedKey`, `ConfigValue`) or
  from the spec (`adjustObjectValue`).
-/

namespace PulumiAst

/-- Scalar kinds of go-yaml nodes relevant here.  `ast.Bool` produces a
distinct `BoolType`; block literals have `LiteralType`; parsed nulls have
`NullType`. -/
inductive ScalarType where
  | string
  | integer
  | float
  | bool
  | literal
  | null
deriving DecidableEq, Repr

/-- go-yaml AST nodes as used by `ast.go`.
`mapping tok values`: `*ast.MappingNode` with its start-token text and
ordered `(key, value)` entries; `sequence`: `*ast.SequenceNode`;
`scalar`: the typed scalar leaves; `mappingValue key value`: a bare
`*ast.MappingValueNode` (what `newValueNode` returns for a secure write). -/
inductive Node where
  | scalar (t : ScalarType) (raw : String)
  | mapping (tok : String) (values : List (String × Node))
  | sequence (values : List Node)
  | mappingValue (key : String) (value : Node)

/-- One path segment from `config.ParseKeyPath`: a mapping member name or a
sequence index (a Go `int`, hence `Int`). -/
inductive Segment where
  | str (s : String)
  | idx (i : Int)

/-- The errors `ast.go` returns to callers. -/
inductive GoError where
  | emptyDocument
  | rootKeyNotFound (key : String)
  | typeMismatchArray (i : Int)
  | typeMismatchMap (key : String)
  | indexOutOfRange
  | secureKeyReserved

/-- Outcome of a Go operation: a value, a returned error, or a panic
(failed type assertion / `contract` violation). -/
inductive Res (α : Type) where
  | ok (a : α)
  | err (e : GoError)
  | fatal (msg : String)

/-- Sequencing of Go statements: propagate a returned error or a panic
(models the `if err != nil \x7b return err \x7d` idiom). -/
def Res.bind {α β : Type} : Res α → (α → Res β) → Res β
  | .ok a, f => f a
  | .err e, _ => .err e
  | .fatal m, _ => .fatal m

/-- Model of `FileAST`: the parsed document bodies (`f.ast.Docs[i].Body`).  A nil
`ast` and zero parsed docs are both `docs = []` (`IsEmpty` treats them
alike). -/
structure FileAST where
  docs : List Node

/-- Modelled from the spec: `config.Key` plus the result of the external
`config.ParseKeyPath` (package `config` is not part of this source).
`keyStr` is `key.String()`, `configKey` is `configKey.String()` for the
distinguished head segment, `segments` the ordered path segments (the head
segment is `segments[0]` and is never read directly by `ast.go`). -/
structure ParsedKey where
  keyStr : String
  configKey : String
  segments : List Segment

/-- Modelled from the spec: a `config.Value` is a raw string plus a secrecy
flag. -/
structure ConfigValue where
  raw : String
  secure : Bool

/-- The dynamic (`interface \x7b\x7d`) value fed to `newValueNode`: either a
typed scalar produced by adjustment or a `config.Value` carrying its raw
string. -/
inductive GoValue where
  | bool (b : Bool)
  | float (repr : String)
  | int (n : Int)
  | str (s : String)
  | cfg (raw : String)

/-- First entry of the list whose key matches, if any (Go loops over
`node.Values` comparing `v.Key.String()`). -/
def lookupKey : List (String × Node) → String → Option Node
  | [], _ => none
  | (k, v) :: rest, key => if k == key then some v else lookupKey rest key

/-- Whether some entry has the given key. -/
def containsKey : List (String × Node) → String → Bool
  | [], _ => false
  | (k, _) :: rest, key => k == key || containsKey rest key

/-- Replace the value of the first entry with the given key (models Go's
in-place `root.Values[i].Value = node`). -/
def setFirst : List (String × Node) → String → Node → List (String × Node)
  | [], _, _ => []
  | (k, v) :: rest, key, n => if k == key then (k, n) :: rest else (k, v) :: setFirst rest key n

/-- Drop the first entry with the given key (models `removeKey`'s splice of
`t.Values`). -/
def removeFirst : List (String × Node) → String → List (String × Node)
  | [], _ => []
  | (k, v) :: rest, key => if k == key then rest else (k, v) :: removeFirst rest key

/-- Go `_, ok := n.(*ast.MappingNode)`. -/
def isMappingNode : Node → Bool
  | .mapping _ _ => true
  | _ => false

/-- Go `_, ok := n.(*ast.SequenceNode)`. -/
def isSequenceNode : Node → Bool
  | .sequence _ => true
  | _ => false

/-- A `MappingNode` whose entry list is empty (`len(t.Values) == 0`). -/
def isEmptyMapping : Node → Bool
  | .mapping _ [] => true
  | _ => false

/-- Test `len(root.Values) == 1 && root.Values[0].Key.String() == "secure"`. -/
def isSecureEntries : List (String × Node) → Bool
  | [(k, _)] => k == "secure"
  | _ => false

/-- Model of `isSecureValue`: a `MappingNode` with exactly one entry keyed
`"secure"`. -/
def isSecureValue : Node → Bool
  | .mapping _ vs => isSecureEntries vs
  | _ => false

/-- The `simpleValue` classification in `SetConfig`'s walk: a scalar whose
type is `StringType`, `IntegerType`, `LiteralType` or `FloatType`, or a
secure-wrapper mapping.  (`BoolType` and `NullType` are not in the list.) -/
def isSimpleValue (n : Node) : Bool :=
  (match n with
   | .scalar t _ => t == .string || t == .integer || t == .literal || t == .float
   | _ => false)
  || isSecureValue n

/-- Model of `upsertNode` on a mapping's entry list: if the mapping is the reserved
single-`secure` shape, replace that entry wholesale; else overwrite the
first same-keyed entry in place; else append.  (Go's single find-and-set
loop is split into `containsKey`/`setFirst`, both first-match.) -/
def upsertEntries (vs : List (String × Node)) (key : String) (node : Node) : List (String × Node) :=
  if isSecureEntries vs then [(key, node)]
  else if containsKey vs key then setFirst vs key node
  else vs ++ [(key, node)]

/-- Model of `upsertNode` at the node level (the Go argument is a `*ast.MappingNode`,
given here as token plus entries). -/
def upsertNode (tok : String) (vs : List (String × Node)) (key : String) (node : Node) : Node :=
  .mapping tok (upsertEntries vs key node)

/-- Model of `newValueNode`: build a scalar from a dynamic value (the leading-`'0'`
double-quoting of strings is formatting only and both branches yield a
`StringType` scalar); wrap in a bare `MappingValueNode` keyed `"secure"`
when a secret was requested. -/
def newValueNode (value : GoValue) (secure : Bool) : Node :=
  let v : Node :=
    match value with
    | .bool b => .scalar .bool (if b then "true" else "false")
    | .float r => .scalar .float r
    | .int n => .scalar .integer (toString n)
    | .str s => .scalar .string s
    | .cfg raw => .scalar .string raw
  if secure then .mappingValue "secure" v else v

/-- Decimal digit value of a character, if it is a digit. -/
def digitVal (c : Char) : Option Nat :=
  let n := c.toNat
  if 48 ≤ n && n ≤ 57 then some (n - 48) else none

/-- Parse a non-empty digit string into a natural number. -/
def natOfDigits : List Char → Nat → Option Nat
  | [], acc => some acc
  | c :: cs, acc =>
      match digitVal c with
      | some d => natOfDigits cs (acc * 10 + d)
      | none => none

/-- Parse a decimal integer literal (with optional leading minus). -/
def parseIntString (s : String) : Option Int :=
  match s.data with
  | [] => none
  | '-' :: cs =>
      match cs with
      | [] => none
      | _ => (natOfDigits cs 0).map (fun n => -(n : Int))
  | cs => (natOfDigits cs 0).map (fun n => (n : Int))

/-- Modelled from the spec: `config.AdjustObjectValue` (package `config`,
outside this source) normalizes raw strings such as `"true"` and `"42"`
into typed scalars when the caller addresses the value through path
syntax, and otherwise returns the value unchanged. -/
def adjustObjectValue (v : ConfigValue) (path : Bool) : GoValue :=
  if path then
    if v.raw == "true" then .bool true
    else if v.raw == "false" then .bool false
    else
      match parseIntString v.raw with
      | some n => .int n
      | none => .cfg v.raw
  else .cfg v.raw

/-- Model of `getConfigFromNode`: read the child at `key`.  A mapping requires a
string key (`contract.Assertf`), a sequence an int key; a sequence index
equal to the length reads as the absent append slot, one outside `[0, len]`
is an error; a bare `MappingValueNode` delegates to its value; anything
else is `contract.Failf`. -/
def getConfigFromNode : Node → Segment → Res (Option Node)
  | .mapping _ vs, .str s => .ok (lookupKey vs s)
  | .mapping _ _, .idx _ => .fatal "key for a map must be a string"
  | .sequence vs, .idx i =>
      if i < 0 || (vs.length : Int) < i then .err .indexOutOfRange
      else if i == (vs.length : Int) then .ok none
      else .ok (vs.get? i.toNat)
  | .sequence _, .str _ => .fatal "key for an array must be an int"
  | .mappingValue _ v, key => getConfigFromNode v key
  | .scalar _ _, _ => .fatal "should not reach here"

/-- Model of `setValue`: upsert into a mapping; for a sequence, overwrite indices
`0..len-1` in place, append at index `len` (asserting a non-nil parent and
parent key), and reject every other index. -/
def setValue (key : Segment) (container : Node) (value : Node)
    (parentNil : Bool) (parentKeyNil : Bool) : Res Node :=
  match container with
  | .mapping tok vs =>
      match key with
      | .str s => .ok (upsertNode tok vs s value)
      | .idx _ => .fatal "key for a map must be a string"
  | .sequence vs =>
      match key with
      | .idx i =>
          if i < 0 || (vs.length : Int) < i then .err .indexOutOfRange
          else if i == (vs.length : Int) then
            if parentNil then .fatal "parent must not be nil"
            else if parentKeyNil then .fatal "parentKey must not be nil"
            else .ok (.sequence (vs ++ [value]))
          else .ok (.sequence (vs.set i.toNat value))
      | .str _ => .fatal "key for an array must be an int"
  | _ => .fatal "unexpected container type"

/-- One step of `SetConfig`'s walk (lines 137-163): classify the value found
at the current key and decide the container to descend into.  Returns the
child and whether it is freshly created: a nil or simple value is replaced
by a new empty sequence (integer segment) or mapping carrying the segment
as its token (string segment); an existing non-simple value of the wrong
container type is a type mismatch.  (`Segment` is closed, so the Go
`default: contract.Failf("unexpected path type")` arm has no counterpart.) -/
def walkStep (pv : Option Node) (pkey : Segment) : Res (Node × Bool) :=
  match pkey, pv with
  | .idx _, none => .ok (.sequence [], true)
  | .idx i, some v =>
      if isSimpleValue v then .ok (.sequence [], true)
      else match v with
        | .sequence vs => .ok (.sequence vs, false)
        | _ => .err (.typeMismatchArray i)
  | .str s, none => .ok (.mapping s [], true)
  | .str s, some v =>
      if isSimpleValue v then .ok (.mapping s [], true)
      else match v with
        | .mapping tok vs => .ok (.mapping tok vs, false)
        | _ => .err (.typeMismatchMap s)

/-- Write back a child that Go mutated through its pointer: replace the
value at the first entry with the given key (mapping) or at the index
(sequence). -/
def replaceChild (cur : Node) (k : Segment) (child : Node) : Node :=
  match cur, k with
  | .mapping tok vs, .str s => .mapping tok (setFirst vs s child)
  | .sequence vs, .idx i => .sequence (vs.set i.toNat child)
  | c, _ => c

/-- The multi-segment walk of `SetConfig` (lines 124-188) as a recursion on
the remaining segments: at each level read the child at `k`, classify it,
splice a freshly created container if needed, and descend; at the last
level write `valNode` with `setValue` and report whether the final cursor
container now satisfies `isSecureValue` (the Go code checks that on
`cursor` after the write).  `parentNil` tracks Go's `parent`/`parentKey`
being nil, which only the first level has. -/
def setPath (cur : Node) (k : Segment) (rest : List Segment) (valNode : Node)
    (parentNil : Bool) : Res (Node × Bool) :=
  match rest with
  | [] =>
      (setValue k cur valNode parentNil parentNil).bind fun cur2 =>
        .ok (cur2, isSecureValue cur2)
  | pkey :: rest2 =>
      (getConfigFromNode cur k).bind fun pv =>
        (walkStep pv pkey).bind fun cc =>
          if cc.2 then
            (setValue k cur cc.1 parentNil parentNil).bind fun cur1 =>
              (setPath cc.1 pkey rest2 valNode false).bind fun cs =>
                .ok (replaceChild cur1 k cs.1, cs.2)
          else
            (setPath cc.1 pkey rest2 valNode false).bind fun cs =>
              .ok (replaceChild cur k cs.1, cs.2)

/-- The body of `SetConfig` once the root container is resolved: the
non-path upsert (the empty-flow-style re-indentation at lines 102-105 is
formatting only), the single-segment upsert, or the multi-segment walk
followed by the reserved-`secure`-shape guard.  Both upsert branches use
the raw value; the walk adjusts it first. -/
def setOp (pk : ParsedKey) (v : ConfigValue) (path : Bool) (sub : Node) : Res Node :=
  match sub with
  | .mapping stok svs =>
      if !path then
        .ok (upsertNode stok svs pk.keyStr (newValueNode (.str v.raw) v.secure))
      else if pk.segments.length == 1 then
        .ok (upsertNode stok svs pk.configKey (newValueNode (.str v.raw) v.secure))
      else
        (setPath (.mapping stok svs) (.str pk.configKey) pk.segments.tail
            (newValueNode (adjustObjectValue v path) v.secure) true).bind fun ns =>
          if ns.2 then .err .secureKeyReserved else .ok ns.1
  | _ => .fatal "node is not a mapping"

/-- Model of `walk` fused with its write-back: find the first entry whose key
matches and whose value is a `MappingNode` (an entry with the right key but
a non-mapping value is skipped, exactly as Go's loop continues), apply `op`
to it and splice the result back.  `ok none` is `walk`'s not-found error. -/
def updateWalk (vs : List (String × Node)) (key : String) (op : Node → Res Node) :
    Res (Option (List (String × Node))) :=
  match vs with
  | [] => .ok none
  | (k, v) :: rest =>
      if k == key && isMappingNode v then
        (op v).bind fun v2 => .ok (some ((k, v2) :: rest))
      else
        (updateWalk rest key op).bind fun o =>
          match o with
          | none => .ok none
          | some rest2 => .ok (some ((k, v) :: rest2))

/-- The condition under which Go's `walk` succeeds: some direct entry has
the requested key and a mapping value. -/
def containsRootMapping : List (String × Node) → String → Bool
  | [], _ => false
  | (k, v) :: rest, key => (k == key && isMappingNode v) || containsRootMapping rest key

/-- Panic message of `x.(*ast.MappingNode)` on a non-mapping body. -/
def interfaceConversionMsg : String :=
  "interface conversion: ast.Node is not *ast.MappingNode"

/-- Model of `SetConfig`: reject an empty document, cast the first document body to a
mapping (panicking otherwise), resolve the optional root key with `walk`
(wrapping its failure), and run `setOp` on the resolved container. -/
def setConfig (f : FileAST) (rootKey : String) (pk : ParsedKey) (v : ConfigValue)
    (path : Bool) : Res FileAST :=
  match f.docs with
  | [] => .err .emptyDocument
  | body :: ds =>
      match body with
      | .mapping tok vs =>
          if rootKey.length == 0 then
            (setOp pk v path (.mapping tok vs)).bind fun b => .ok ⟨b :: ds⟩
          else
            (updateWalk vs rootKey (setOp pk v path)).bind fun o =>
              match o with
              | none => .err (.rootKeyNotFound rootKey)
              | some vs2 => .ok ⟨.mapping tok vs2 :: ds⟩
      | _ => .fatal interfaceConversionMsg

/-- Model of `HasKey`: false on an empty document, otherwise scan the root mapping's
direct entries (panicking if the body is not a mapping). -/
def hasKey (f : FileAST) (k : String) : Res Bool :=
  match f.docs with
  | [] => .ok false
  | body :: _ =>
      match body with
      | .mapping _ vs => .ok (containsKey vs k)
      | _ => .fatal interfaceConversionMsg

/-- Model of `removeKey`: delete the first matching entry of a mapping (string key)
or the element at an in-range index of a sequence; every other input is a
no-op. -/
def removeKeyNode (node : Node) (key : Segment) : Node :=
  match node with
  | .mapping tok vs =>
      match key with
      | .str s => .mapping tok (removeFirst vs s)
      | .idx _ => .mapping tok vs
  | .sequence vs =>
      match key with
      | .idx i =>
          if i < 0 || (vs.length : Int) ≤ i then .sequence vs
          else .sequence (vs.eraseIdx i.toNat)
      | .str _ => .sequence vs
  | n => n

/-- The parent-entry key used by `RemoveConfig`'s empty-mapping repair
(lines 250-255): the head `configKey` for a two-segment path, otherwise the
second-to-last segment cast to a string (a Go panic if it is an int). -/
def repairKeyFn (segs : List Segment) (ck : String) : Res String :=
  if segs.length == 2 then .ok ck
  else
    match segs.get? (segs.length - 2) with
    | some (.str s) => .ok s
    | some (.idx _) => .fatal "interface conversion: segment is int, not string"
    | none => .fatal "index out of range"

/-- The navigation path `p` that `RemoveConfig` hands to `getNodeForPath`:
the head `configKey` followed by the middle segments when the path has more
than two segments. -/
def removePathOf (segs : List Segment) (ck : String) : List Segment :=
  .str ck :: (if 2 < segs.length then (segs.drop 1).take (segs.length - 2) else [])

/-- Model of `getNodeForPath` fused with `RemoveConfig`'s removal and repair
(lines 239-258): navigate `p` read-only; `ok none` is any navigation
failure (wrong container type, missing key, index out of range), which the
caller turns into a no-op.  At the last step, delete `last` from the
found `dest`; if `dest` is a now-empty mapping and its parent is a
mapping, replace the parent's entry at the (lazily evaluated) repair key
with a fresh mapping whose token is the placeholder `"-"`. -/
def removeWalk (v : Node) (p : List Segment) (last : Segment) (rk : Res String) :
    Res (Option Node) :=
  match p with
  | [] => .ok (some (removeKeyNode v last))
  | [k] =>
      match v with
      | .mapping tok vs =>
          match k with
          | .str s =>
              match lookupKey vs s with
              | none => .ok (some (.mapping tok vs))
              | some d =>
                  if isEmptyMapping (removeKeyNode d last) then
                    rk.bind fun rkey => .ok (some (upsertNode tok vs rkey (.mapping "-" [])))
                  else .ok (some (.mapping tok (setFirst vs s (removeKeyNode d last))))
          | .idx _ => .ok none
      | .sequence vs =>
          match k with
          | .idx i =>
              if i < 0 || (vs.length : Int) ≤ i then .ok none
              else
                match vs.get? i.toNat with
                | none => .ok none
                | some d => .ok (some (.sequence (vs.set i.toNat (removeKeyNode d last))))
          | .str _ => .ok none
      | _ => .ok none
  | k :: rest =>
      match v with
      | .mapping tok vs =>
          match k with
          | .str s =>
              match lookupKey vs s with
              | none => .ok none
              | some c =>
                  (removeWalk c rest last rk).bind fun o =>
                    match o with
                    | none => .ok none
                    | some c2 => .ok (some (.mapping tok (setFirst vs s c2)))
          | .idx _ => .ok none
      | .sequence vs =>
          match k with
          | .idx i =>
              if i < 0 || (vs.length : Int) ≤ i then .ok none
              else
                match vs.get? i.toNat with
                | none => .ok none
                | some c =>
                    (removeWalk c rest last rk).bind fun o =>
                      match o with
                      | none => .ok none
                      | some c2 => .ok (some (.sequence (vs.set i.toNat c2)))
          | .str _ => .ok none
      | _ => .ok none

/-- The body of `RemoveConfig` once the root container is resolved: plain
key removal when not in path mode or for zero/one segments; otherwise the
navigation-and-repair walk, whose navigation failure is a no-op. -/
def removeOp (pk : ParsedKey) (path : Bool) (sub : Node) : Res Node :=
  match sub with
  | .mapping stok svs =>
      if !path then .ok (.mapping stok (removeFirst svs pk.keyStr))
      else if pk.segments.length == 0 then .ok (.mapping stok svs)
      else if pk.segments.length == 1 then .ok (.mapping stok (removeFirst svs pk.configKey))
      else
        match pk.segments.getLast? with
        | none => .ok (.mapping stok svs)
        | some last =>
            (removeWalk (.mapping stok svs) (removePathOf pk.segments pk.configKey) last
                (repairKeyFn pk.segments pk.configKey)).bind fun o =>
              match o with
              | none => .ok (.mapping stok svs)
              | some n => .ok n
  | _ => .fatal "node is not a mapping"

/-- Model of `RemoveConfig`: a no-op on an empty document, then the same body cast
and root-key resolution as `SetConfig`, then `removeOp`. -/
def removeConfig (f : FileAST) (rootKey : String) (pk : ParsedKey) (path : Bool) :
    Res FileAST :=
  match f.docs with
  | [] => .ok f
  | body :: ds =>
      match body with
      | .mapping tok vs =>
          if rootKey.length == 0 then
            (removeOp pk path (.mapping tok vs)).bind fun b => .ok ⟨b :: ds⟩
          else
            (updateWalk vs rootKey (removeOp pk path)).bind fun o =>
              match o with
              | none => .err (.rootKeyNotFound rootKey)
              | some vs2 => .ok ⟨.mapping tok vs2 :: ds⟩
      | _ => .fatal interfaceConversionMsg

/-- Errors that can arise inside `SetConfig`'s multi-segment walk. -/
def isWalkErr : GoError → Bool
  | .indexOutOfRange => true
  | .typeMismatchArray _ => true
  | .typeMismatchMap _ => true
  | _ => false

@[simp]
theorem Res.bind_eq_err {α β : Type} (x : Res α) (f : α → Res β) (e : GoError) :
    x.bind f = .err e ↔ (x = .err e ∨ ∃ a, x = .ok a ∧ f a = .err e) := by
  cases x <;> simp [Res.bind]

@[simp]
theorem Res.bind_eq_ok {α β : Type} (x : Res α) (f : α → Res β) (b : β) :
    x.bind f = .ok b ↔ ∃ a, x = .ok a ∧ f a = .ok b := by
  cases x <;> simp [Res.bind]

theorem setValue_err (key : Segment) (c v : Node) (p q : Bool) (e : GoError)
    (h : setValue key c v p q = .err e) : e = .indexOutOfRange := by
  unfold setValue at h
  split at h
  · split at h <;> simp_all
  · split at h
    · split at h
      · simp_all
      · split at h
        · split at h
          · simp_all
          · split at h <;> simp_all
        · simp_all
    · simp_all
  · simp_all

theorem getConfigFromNode_err : ∀ (n : Node) (k : Segment) (e : GoError),
    getConfigFromNode n k = .err e → e = .indexOutOfRange
  | .mapping _ _, .str _, _, h => by simp [getConfigFromNode] at h
  | .mapping _ _, .idx _, _, h => by simp [getConfigFromNode] at h
  | .sequence _, .idx _, _, h => by
      simp only [getConfigFromNode] at h
      split at h
      · simp_all
      · split at h <;> simp_all
  | .sequence _, .str _, _, h => by simp [getConfigFromNode] at h
  | .mappingValue _ v, k, e, h =>
      getConfigFromNode_err v k e (by simpa [getConfigFromNode] using h)
  | .scalar _ _, _, _, h => by simp [getConfigFromNode] at h

theorem walkStep_err (pv : Option Node) (pkey : Segment) (e : GoError)
    (h : walkStep pv pkey = .err e) : isWalkErr e = true := by
  unfold walkStep at h
  split at h
  · simp_all
  · split at h
    · simp_all
    · split at h
      · simp_all
      · injection h with h2
        exact h2 ▸ rfl
  · simp_all
  · split at h
    · simp_all
    · split at h
      · simp_all
      · injection h with h2
        exact h2 ▸ rfl

theorem setPath_err : ∀ (rest : List Segment) (cur : Node) (k : Segment) (vn : Node)
    (pn : Bool) (e : GoError), setPath cur k rest vn pn = .err e → isWalkErr e = true
  | [], cur, k, vn, pn, e, h => by
      simp only [setPath, Res.bind_eq_err] at h
      rcases h with h | ⟨a, _, hf⟩
      · exact (setValue_err k cur vn pn pn e h) ▸ rfl
      · simp at hf
  | pkey :: rest2, cur, k, vn, pn, e, h => by
      simp only [setPath, Res.bind_eq_err] at h
      rcases h with h | ⟨pv, _, h | ⟨cc, _, h⟩⟩
      · exact (getConfigFromNode_err cur k e h) ▸ rfl
      · exact walkStep_err pv pkey e h
      · split at h
        · simp only [Res.bind_eq_err] at h
          rcases h with h | ⟨cur1, _, h | ⟨cs, _, h⟩⟩
          · exact (setValue_err k cur cc.1 pn pn e h) ▸ rfl
          · exact setPath_err rest2 cc.1 pkey vn false e h
          · simp at h
        · simp only [Res.bind_eq_err] at h
          rcases h with h | ⟨cs, _, h⟩
          · exact setPath_err rest2 cc.1 pkey vn false e h
          · simp at h

theorem setOp_err (pk : ParsedKey) (v : ConfigValue) (path : Bool) (sub : Node) (e : GoError)
    (h : setOp pk v path sub = .err e) : e = .secureKeyReserved ∨ isWalkErr e = true := by
  unfold setOp at h
  split at h
  · split at h
    · simp_all
    · split at h
      · simp_all
      · simp only [Res.bind_eq_err] at h
        rcases h with h | ⟨ns, _, h⟩
        · exact Or.inr (setPath_err _ _ _ _ _ e h)
        · split at h
          · injection h with h2
            exact Or.inl h2.symm
          · simp at h
  · simp_all

theorem updateWalk_of_not_found (op : Node → Res Node) (vs : List (String × Node))
    (key : String) (h : containsRootMapping vs key = false) : updateWalk vs key op = .ok none := by
  induction vs with
  | nil => rfl
  | cons kv rest ih =>
      obtain ⟨k, v⟩ := kv
      simp only [containsRootMapping, Bool.or_eq_false_iff] at h
      simp [updateWalk, h.1, ih h.2, Res.bind]

theorem updateWalk_none (op : Node → Res Node) (vs : List (String × Node)) (key : String)
    (h : updateWalk vs key op = .ok none) : containsRootMapping vs key = false := by
  induction vs with
  | nil => rfl
  | cons kv rest ih =>
      obtain ⟨k, v⟩ := kv
      simp only [updateWalk] at h
      split at h
      · rename_i hc
        simp only [Res.bind_eq_ok] at h
        rcases h with ⟨v2, _, h2⟩
        simp at h2
      · rename_i hc
        simp only [Res.bind_eq_ok] at h
        rcases h with ⟨o, ho, h2⟩
        cases o with
        | some rest2 => simp at h2
        | none =>
            simp only [containsRootMapping, Bool.or_eq_false_iff]
            exact ⟨by simpa using hc, ih ho⟩

theorem updateWalk_err (op : Node → Res Node) (vs : List (String × Node)) (key : String)
    (e : GoError) (h : updateWalk vs key op = .err e) : ∃ n, op n = .err e := by
  induction vs with
  | nil => simp [updateWalk] at h
  | cons kv rest ih =>
      obtain ⟨k, v⟩ := kv
      simp only [updateWalk] at h
      split at h
      · simp only [Res.bind_eq_err] at h
        rcases h with h | ⟨v2, _, h2⟩
        · exact ⟨v, h⟩
        · simp at h2
      · simp only [Res.bind_eq_err] at h
        rcases h with h | ⟨o, _, h2⟩
        · exact ih h
        · cases o <;> simp at h2

theorem updateWalk_found (op : Node → Res Node)
    (hop : ∀ tok vs0, ∃ n, op (.mapping tok vs0) = .ok n)
    (vs : List (String × Node)) (key : String) (h : containsRootMapping vs key = true) :
    ∃ vs2, updateWalk vs key op = .ok (some vs2) := by
  induction vs with
  | nil => simp [containsRootMapping] at h
  | cons kv rest ih =>
      obtain ⟨k, v⟩ := kv
      simp only [containsRootMapping, Bool.or_eq_true] at h
      by_cases hc : (k == key && isMappingNode v) = true
      · have hm : isMappingNode v = true := by
          have := hc
          simp only [Bool.and_eq_true] at this
          exact this.2
        match v, hm with
        | .mapping tok vs0, _ =>
            obtain ⟨n, hn⟩ := hop tok vs0
            exact ⟨(k, n) :: rest, by simp [updateWalk, hc, hn, Res.bind]⟩
      · rcases h with h | h
        · exact absurd h hc
        · obtain ⟨vs2, hvs2⟩ := ih h
          exact ⟨(k, v) :: vs2, by simp [updateWalk, hc, hvs2, Res.bind]⟩

theorem updateWalk_idem (op : Node → Res Node)
    (hop : ∀ n r, isMappingNode n = true → op n = .ok r → isMappingNode r = true ∧ op r = .ok r) :
    ∀ (vs : List (String × Node)) (key : String) (vs2 : List (String × Node)),
      updateWalk vs key op = .ok (some vs2) → updateWalk vs2 key op = .ok (some vs2) := by
  intro vs
  induction vs with
  | nil => intro key vs2 h; simp [updateWalk] at h
  | cons kv rest ih =>
      obtain ⟨k, v⟩ := kv
      intro key vs2 h
      simp only [updateWalk] at h
      by_cases hc : (k == key && isMappingNode v) = true
      · rw [if_pos hc] at h
        simp only [Res.bind_eq_ok] at h
        rcases h with ⟨v2, hv2, hEq⟩
        have hvs2 : (k, v2) :: rest = vs2 := by simpa using hEq
        subst hvs2
        have hc1 : (k == key) = true ∧ isMappingNode v = true := by
          simpa [Bool.and_eq_true] using hc
        obtain ⟨hm2, hop2⟩ := hop v v2 hc1.2 hv2
        have hc2 : (k == key && isMappingNode v2) = true := by
          simp [Bool.and_eq_true, hc1.1, hm2]
        simp [updateWalk, hc2, hop2, Res.bind]
      · rw [if_neg hc] at h
        simp only [Res.bind_eq_ok] at h
        rcases h with ⟨o, ho, hEq⟩
        cases o with
        | none => simp at hEq
        | some rest2 =>
            have hvs2 : (k, v) :: rest2 = vs2 := by simpa using hEq
            subst hvs2
            simp [updateWalk, hc, ih key rest2 ho, Res.bind]

theorem setFirst_setFirst (vs : List (String × Node)) (k : String) (n : Node) :
    setFirst (setFirst vs k n) k n = setFirst vs k n := by
  induction vs with
  | nil => rfl
  | cons kv rest ih =>
      obtain ⟨k0, v0⟩ := kv
      by_cases h : (k0 == k) = true <;> simp [setFirst, h, ih]

theorem containsKey_setFirst (vs : List (String × Node)) (k k2 : String) (n : Node) :
    containsKey (setFirst vs k n) k2 = containsKey vs k2 := by
  induction vs with
  | nil => rfl
  | cons kv rest ih =>
      obtain ⟨k0, v0⟩ := kv
      by_cases h : (k0 == k) = true <;> simp [setFirst, containsKey, h, ih]

theorem isSecureEntries_setFirst (vs : List (String × Node)) (k : String) (n : Node) :
    isSecureEntries (setFirst vs k n) = isSecureEntries vs := by
  cases vs with
  | nil => rfl
  | cons kv rest =>
      obtain ⟨k0, v0⟩ := kv
      cases rest with
      | nil => by_cases h : (k0 == k) = true <;> simp [setFirst, isSecureEntries, h]
      | cons kv2 rest2 =>
          obtain ⟨k1, v1⟩ := kv2
          by_cases h : (k0 == k) = true <;> by_cases h2 : (k1 == k) = true <;>
            simp [setFirst, isSecureEntries, h, h2]

theorem containsKey_append_self (vs : List (String × Node)) (k : String) (n : Node) :
    containsKey (vs ++ [(k, n)]) k = true := by
  induction vs with
  | nil => simp [containsKey]
  | cons kv rest ih =>
      obtain ⟨k0, v0⟩ := kv
      simp [containsKey, ih]

theorem setFirst_append_self (vs : List (String × Node)) (k : String) (n n2 : Node)
    (h : containsKey vs k = false) : setFirst (vs ++ [(k, n)]) k n2 = vs ++ [(k, n2)] := by
  induction vs with
  | nil => simp [setFirst]
  | cons kv rest ih =>
      obtain ⟨k0, v0⟩ := kv
      simp only [containsKey, Bool.or_eq_false_iff] at h
      simp [setFirst, h.1, ih h.2]

theorem upsertEntries_single (k : String) (n : Node) : upsertEntries [(k, n)] k n = [(k, n)] := by
  by_cases hk : (k == "secure") = true
  · simp [upsertEntries, isSecureEntries, hk]
  · simp [upsertEntries, isSecureEntries, hk, containsKey, setFirst]

theorem upsertEntries_idem (vs : List (String × Node)) (k : String) (n : Node) :
    upsertEntries (upsertEntries vs k n) k n = upsertEntries vs k n := by
  by_cases h1 : isSecureEntries vs = true
  · rw [show upsertEntries vs k n = [(k, n)] from by simp [upsertEntries, h1]]
    exact upsertEntries_single k n
  · by_cases h2 : containsKey vs k = true
    · have hv : upsertEntries vs k n = setFirst vs k n := by
        simp [upsertEntries, h1, h2]
      rw [hv]
      have hs : isSecureEntries (setFirst vs k n) = false := by
        rw [isSecureEntries_setFirst]
        simpa using h1
      have hck : containsKey (setFirst vs k n) k = true := by
        rw [containsKey_setFirst]
        exact h2
      simp [upsertEntries, hs, hck, setFirst_setFirst]
    · have hv : upsertEntries vs k n = vs ++ [(k, n)] := by
        simp [upsertEntries, h1, h2]
      rw [hv]
      by_cases h3 : isSecureEntries (vs ++ [(k, n)]) = true
      · have hvs : vs = [] := by
          cases vs with
          | nil => rfl
          | cons a tl => cases tl <;> simp [isSecureEntries] at h3
        subst hvs
        have h5 : upsertEntries [(k, n)] k n = [(k, n)] := by
          simp only [upsertEntries]
          rw [if_pos (by simpa using h3)]
        simpa using h5
      · have h4 : containsKey (vs ++ [(k, n)]) k = true := containsKey_append_self vs k n
        have h5 : containsKey vs k = false := by simpa using h2
        simp [upsertEntries, h3, h4, setFirst_append_self vs k n n h5]

theorem repairKeyFn_ne_err (segs : List Segment) (ck : String) (e : GoError) :
    repairKeyFn segs ck ≠ .err e := by
  unfold repairKeyFn
  split
  · simp
  · split <;> simp

theorem removeWalk_ne_err : ∀ (p : List Segment) (v : Node) (last : Segment) (rk : Res String),
    (∀ e0, rk ≠ .err e0) → ∀ e, removeWalk v p last rk ≠ .err e
  | [], v, last, rk, _, e => by simp [removeWalk]
  | [k], v, last, rk, hrk, e => by
      intro h
      simp only [removeWalk] at h
      split at h
      · split at h
        · split at h
          · simp at h
          · split at h
            · simp only [Res.bind_eq_err] at h
              rcases h with h | ⟨a, _, h2⟩
              · exact hrk e h
              · simp at h2
            · simp at h
        · simp at h
      · split at h
        · split at h
          · simp at h
          · split at h <;> simp at h
        · simp at h
      · simp at h
  | k :: k2 :: rest, v, last, rk, hrk, e => by
      intro h
      simp only [removeWalk] at h
      split at h
      · split at h
        · split at h
          · simp at h
          · simp only [Res.bind_eq_err] at h
            rcases h with h | ⟨o, _, h2⟩
            · exact removeWalk_ne_err (k2 :: rest) _ last rk hrk e h
            · cases o <;> simp at h2
        · simp at h
      · split at h
        · split at h
          · simp at h
          · split at h
            · simp at h
            · simp only [Res.bind_eq_err] at h
              rcases h with h | ⟨o, _, h2⟩
              · exact removeWalk_ne_err (k2 :: rest) _ last rk hrk e h
              · cases o <;> simp at h2
        · simp at h
      · simp at h

theorem removeOp_ne_err (pk : ParsedKey) (path : Bool) (sub : Node) (e : GoError) :
    removeOp pk path sub ≠ .err e := by
  intro h
  unfold removeOp at h
  split at h
  · split at h
    · simp at h
    · split at h
      · simp at h
      · split at h
        · simp at h
        · split at h
          · simp at h
          · simp only [Res.bind_eq_err] at h
            rcases h with h | ⟨o, _, h2⟩
            · exact removeWalk_ne_err _ _ _ _
                (fun e0 => repairKeyFn_ne_err pk.segments pk.configKey e0) e h
            · cases o <;> simp at h2
  · simp at h

theorem setOp_false (pk : ParsedKey) (v : ConfigValue) (tok : String)
    (vs : List (String × Node)) :
    setOp pk v false (.mapping tok vs)
      = .ok (upsertNode tok vs pk.keyStr (newValueNode (.str v.raw) v.secure)) := rfl

theorem setOp_single (pk : ParsedKey) (v : ConfigValue) (tok : String)
    (vs : List (String × Node)) (h : (pk.segments.length == 1) = true) :
    setOp pk v true (.mapping tok vs)
      = .ok (upsertNode tok vs pk.configKey (newValueNode (.str v.raw) v.secure)) := by
  simp only [setOp, h]
  rfl

/-- Claim C8: upserting into a mapping that is exactly the reserved
single-entry `secure` shape replaces that entry wholesale: the previous
secret entry and its value are discarded even when the new key differs
from `"secure"`, and the mapping has exactly one entry afterwards. -/
theorem c8_upsert_replaces_secure_wholesale (tok : String) (v0 : Node) (k : String) (n : Node) :
    upsertNode tok [("secure", v0)] k n = Node.mapping tok [(k, n)]
    ∧ (upsertEntries [("secure", v0)] k n).length = 1 := by
  constructor
  · simp [upsertNode, upsertEntries, isSecureEntries]
  · simp [upsertEntries, isSecureEntries]

/-- Claim C10: `HasKey`, `SetConfig` and `RemoveConfig` each
unconditionally cast the first document body to a mapping node, so on any
non-empty document whose body is not a mapping all three panic instead of
returning `false` or an error. -/
theorem c10_non_mapping_body_panics (b : Node) (ds : List Node) (k rk : String)
    (pk : ParsedKey) (v : ConfigValue) (path : Bool) (h : isMappingNode b = false) :
    hasKey ⟨b :: ds⟩ k = .fatal interfaceConversionMsg
    ∧ setConfig ⟨b :: ds⟩ rk pk v path = .fatal interfaceConversionMsg
    ∧ removeConfig ⟨b :: ds⟩ rk pk path = .fatal interfaceConversionMsg := by
  cases b with
  | mapping tok vs => simp [isMappingNode] at h
  | scalar t r => exact ⟨rfl, rfl, rfl⟩
  | sequence vs => exact ⟨rfl, rfl, rfl⟩
  | mappingValue k2 v2 => exact ⟨rfl, rfl, rfl⟩

/-- Witness for C10 at a concrete scalar-bodied document. -/
theorem c10_witness :
    hasKey ⟨[Node.scalar .string "s"]⟩ "k" = .fatal interfaceConversionMsg
    ∧ setConfig ⟨[Node.scalar .string "s"]⟩ "" ⟨"k", "k", [.str "k"]⟩ ⟨"v", false⟩ false
        = .fatal interfaceConversionMsg
    ∧ removeConfig ⟨[Node.scalar .string "s"]⟩ "" ⟨"k", "k", [.str "k"]⟩ false
        = .fatal interfaceConversionMsg :=
  c10_non_mapping_body_panics (.scalar .string "s") [] "k" "" ⟨"k", "k", [.str "k"]⟩
    ⟨"v", false⟩ false rfl

/-- Claim C4: on a sequence of length `len`, `setValue` overwrites in
place at indices `0..len-1`, appends at index `len` (requiring non-nil
parent and parent key, panicking otherwise), and returns the
index-out-of-range error at every other index; `getConfigFromNode`
likewise reads index `len` as the absent append slot and any index outside
`[0, len]` as out of range. -/
theorem c4_sequence_set_and_read (vs : List Node) (i : Int) (value : Node) (b1 b2 : Bool) :
    (0 ≤ i → i < (vs.length : Int) →
      setValue (.idx i) (.sequence vs) value b1 b2 = .ok (.sequence (vs.set i.toNat value)))
    ∧ (setValue (.idx (vs.length : Int)) (.sequence vs) value false false
        = .ok (.sequence (vs ++ [value])))
    ∧ (setValue (.idx (vs.length : Int)) (.sequence vs) value true b2
        = .fatal "parent must not be nil")
    ∧ (setValue (.idx (vs.length : Int)) (.sequence vs) value false true
        = .fatal "parentKey must not be nil")
    ∧ ((i < 0 ∨ (vs.length : Int) < i) →
        setValue (.idx i) (.sequence vs) value b1 b2 = .err .indexOutOfRange)
    ∧ (getConfigFromNode (.sequence vs) (.idx (vs.length : Int)) = .ok none)
    ∧ (0 ≤ i → i < (vs.length : Int) →
        getConfigFromNode (.sequence vs) (.idx i) = .ok (vs.get? i.toNat))
    ∧ ((i < 0 ∨ (vs.length : Int) < i) →
        getConfigFromNode (.sequence vs) (.idx i) = .err .indexOutOfRange) := by
  refine ⟨?_, ?_, ?_, ?_, ?_, ?_, ?_, ?_⟩
  · intro h0 hlt
    simp only [setValue]
    rw [if_neg (by simp; omega), if_neg (by simp; omega)]
  · simp only [setValue]
    rw [if_neg (by simp), if_pos (by simp)]
    rfl
  · simp only [setValue]
    rw [if_neg (by simp), if_pos (by simp)]
    rfl
  · simp only [setValue]
    rw [if_neg (by simp), if_pos (by simp)]
    rfl
  · intro h
    simp only [setValue]
    rw [if_pos (by simp; omega)]
  · simp only [getConfigFromNode]
    rw [if_neg (by simp), if_pos (by simp)]
  · intro h0 hlt
    simp only [getConfigFromNode]
    rw [if_neg (by simp; omega), if_neg (by simp; omega)]
  · intro h
    simp only [getConfigFromNode]
    rw [if_pos (by simp; omega)]

/-- Witness for C4 on a two-element sequence: in-range overwrite, index 5
out of range, index 2 reads as the append slot. -/
theorem c4_witness :
    setValue (.idx 1) (.sequence [Node.scalar .string "x", Node.scalar .string "y"])
        (Node.scalar .string "z") false false
      = .ok (.sequence [Node.scalar .string "x", Node.scalar .string "z"])
    ∧ setValue (.idx 5) (.sequence [Node.scalar .string "x", Node.scalar .string "y"])
        (Node.scalar .string "z") false false = .err .indexOutOfRange
    ∧ getConfigFromNode (.sequence [Node.scalar .string "x", Node.scalar .string "y"]) (.idx 2)
        = .ok none :=
  ⟨(c4_sequence_set_and_read [Node.scalar .string "x", Node.scalar .string "y"] 1
      (Node.scalar .string "z") false false).1 (by decide) (by decide),
   (c4_sequence_set_and_read [Node.scalar .string "x", Node.scalar .string "y"] 5
      (Node.scalar .string "z") false false).2.2.2.2.1 (Or.inr (by decide)),
   (c4_sequence_set_and_read [Node.scalar .string "x", Node.scalar .string "y"] 5
      (Node.scalar .string "z") false false).2.2.2.2.2.1⟩

/-- Claim C5: after a multi-segment path-mode removal empties a mapping
whose parent is a mapping, the parent entry that pointed at the target is
replaced (via `upsertNode`) by a freshly synthesized mapping carrying the
placeholder token `"-"`, and the parent-entry key used is the head
`configKey` for a two-segment path and the second-to-last segment
otherwise. -/
theorem c5_empty_mapping_repair (tok : String) (vs : List (String × Node)) (s : String)
    (last : Segment) (segs : List Segment) (ck : String) (d : Node) (rk : String)
    (hd : lookupKey vs s = some d)
    (he : isEmptyMapping (removeKeyNode d last) = true)
    (hrk : repairKeyFn segs ck = .ok rk) :
    removeWalk (.mapping tok vs) [.str s] last (repairKeyFn segs ck)
      = .ok (some (upsertNode tok vs rk (.mapping "-" [])))
    ∧ (segs.length = 2 → rk = ck)
    ∧ (2 < segs.length → segs.get? (segs.length - 2) = some (.str rk)) := by
  refine ⟨?_, ?_, ?_⟩
  · simp only [removeWalk, hd]
    rw [if_pos he, hrk]
    rfl
  · intro h2
    unfold repairKeyFn at hrk
    rw [if_pos (by simp [h2])] at hrk
    injection hrk with h3
    exact h3.symm
  · intro h2
    unfold repairKeyFn at hrk
    rw [if_neg (by simp; omega)] at hrk
    split at hrk
    · rename_i s2 heq
      injection hrk with h3
      rw [heq, h3]
    · simp at hrk
    · simp at hrk

/-- Witness for C5: removing `a.c` from `(a: (c: v))` replaces the parent
entry `a` with the placeholder mapping. -/
theorem c5_witness :
    removeWalk (.mapping "m" [("a", Node.mapping "x" [("c", Node.scalar .string "v")])])
        [.str "a"] (.str "c") (repairKeyFn [.str "a", .str "c"] "a")
      = .ok (some (Node.mapping "m" [("a", Node.mapping "-" [])])) := by
  have h := (c5_empty_mapping_repair "m"
    [("a", Node.mapping "x" [("c", Node.scalar .string "v")])] "a" (.str "c")
    [.str "a", .str "c"] "a" (Node.mapping "x" [("c", Node.scalar .string "v")]) "a"
    rfl rfl rfl).1
  exact h

theorem setOp_false_idem (pk : ParsedKey) (v : ConfigValue) :
    ∀ (n r : Node), isMappingNode n = true → setOp pk v false n = .ok r →
      isMappingNode r = true ∧ setOp pk v false r = .ok r := by
  intro n r hn h
  cases n with
  | mapping tok vs =>
      rw [setOp_false] at h
      have hr : upsertNode tok vs pk.keyStr (newValueNode (.str v.raw) v.secure) = r := by
        simpa using h
      subst hr
      refine ⟨rfl, ?_⟩
      simp only [upsertNode]
      rw [setOp_false]
      simp [upsertNode, upsertEntries_idem]
  | scalar t s => simp [isMappingNode] at hn
  | sequence s => simp [isMappingNode] at hn
  | mappingValue k2 v2 => simp [isMappingNode] at hn

/-- Claim C7: `Set(root, key, v, false)` is idempotent: if the first call
succeeds with tree `g`, a second identical call returns exactly `g` (the
same-named entry is overwritten in place with an equal node; nothing is
appended). -/
theorem c7_set_idempotent (f : FileAST) (rk : String) (pk : ParsedKey) (v : ConfigValue)
    (g : FileAST) (h : setConfig f rk pk v false = .ok g) :
    setConfig g rk pk v false = .ok g := by
  obtain ⟨docs⟩ := f
  cases docs with
  | nil => simp [setConfig] at h
  | cons body ds =>
      cases body with
      | mapping tok vs =>
          simp only [setConfig] at h
          by_cases hrk : (rk.length == 0) = true
          · rw [if_pos hrk] at h
            rw [setOp_false] at h
            have hg : (⟨Node.mapping tok
                (upsertEntries vs pk.keyStr (newValueNode (.str v.raw) v.secure)) :: ds⟩ :
                FileAST) = g := by
              simpa [Res.bind, upsertNode] using h
            subst hg
            simp only [setConfig]
            rw [if_pos hrk, setOp_false]
            simp [Res.bind, upsertNode, upsertEntries_idem]
          · rw [if_neg hrk] at h
            simp only [Res.bind_eq_ok] at h
            rcases h with ⟨o, ho, h2⟩
            cases o with
            | none => simp at h2
            | some vs2 =>
                have hg : (⟨Node.mapping tok vs2 :: ds⟩ : FileAST) = g := by simpa using h2
                subst hg
                simp only [setConfig]
                rw [if_neg hrk]
                have := updateWalk_idem (setOp pk v false) (setOp_false_idem pk v) vs rk vs2 ho
                simp [this, Res.bind]
      | scalar t r => simp [setConfig] at h
      | sequence s => simp [setConfig] at h
      | mappingValue k2 v2 => simp [setConfig] at h

/-- Witness for C7: setting `k` to `"x"` twice from the empty mapping. -/
theorem c7_witness :
    setConfig ⟨[Node.mapping "m" [("k", Node.scalar .string "x")]]⟩ "" ⟨"k", "k", []⟩
        ⟨"x", false⟩ false
      = .ok ⟨[Node.mapping "m" [("k", Node.scalar .string "x")]]⟩ :=
  c7_set_idempotent ⟨[Node.mapping "m" []]⟩ "" ⟨"k", "k", []⟩ ⟨"x", false⟩
    ⟨[Node.mapping "m" [("k", Node.scalar .string "x")]]⟩ rfl

/-- Claim C3: `RemoveConfig` on an empty document is a successful no-op;
the only error it ever returns is the root-key-not-found failure; and a
navigation failure of the deep walk (wrong container type, missing key or
index out of range, i.e. `removeWalk` returning `ok none`) leaves the
document unchanged and returns success. -/
theorem c3_remove_error_behavior (f : FileAST) (rk : String) (pk : ParsedKey) (path : Bool) :
    (f.docs = [] → removeConfig f rk pk path = .ok f)
    ∧ (∀ e, removeConfig f rk pk path = .err e → e = .rootKeyNotFound rk)
    ∧ (∀ tok vs ds last, f.docs = Node.mapping tok vs :: ds → rk = "" → path = true →
        pk.segments.getLast? = some last →
        (pk.segments.length == 0) = false → (pk.segments.length == 1) = false →
        removeWalk (Node.mapping tok vs) (removePathOf pk.segments pk.configKey) last
            (repairKeyFn pk.segments pk.configKey) = .ok none →
        removeConfig f rk pk path = .ok f) := by
  obtain ⟨docs⟩ := f
  refine ⟨?_, ?_, ?_⟩
  · intro h
    simp only at h
    subst h
    rfl
  · intro e h
    cases docs with
    | nil => simp [removeConfig] at h
    | cons body ds =>
        cases body with
        | mapping tok vs =>
            simp only [removeConfig] at h
            by_cases hrk : (rk.length == 0) = true
            · rw [if_pos hrk] at h
              simp only [Res.bind_eq_err] at h
              rcases h with h | ⟨b, _, h2⟩
              · exact absurd h (removeOp_ne_err pk path _ e)
              · simp at h2
            · rw [if_neg hrk] at h
              simp only [Res.bind_eq_err] at h
              rcases h with h | ⟨o, _, h2⟩
              · obtain ⟨n, hn⟩ := updateWalk_err _ vs rk e h
                exact absurd hn (removeOp_ne_err pk path n e)
              · cases o with
                | none =>
                    injection h2 with h3
                    exact h3.symm
                | some vs2 => simp at h2
        | scalar t r => simp [removeConfig] at h
        | sequence s => simp [removeConfig] at h
        | mappingValue a b => simp [removeConfig] at h
  · intro tok vs ds last hf hrk hpath hlast h0 h1 hwalk
    simp only at hf
    subst hf
    subst hrk
    subst hpath
    simp only [removeConfig]
    rw [if_pos (by rfl)]
    have hop : removeOp pk true (.mapping tok vs) = .ok (.mapping tok vs) := by
      simp only [removeOp]
      rw [if_neg (by simp), if_neg (by simp [h0]), if_neg (by simp [h1]), hlast]
      simp [hwalk, Res.bind]
    rw [hop]
    rfl

/-- Witness for C3: empty document no-op, the concrete root-key error,
and a navigation-failure no-op on `b.c` over a document lacking `b`. -/
theorem c3_witness :
    removeConfig ⟨[]⟩ "r" ⟨"k", "k", [.str "k"]⟩ true = .ok ⟨[]⟩
    ∧ GoError.rootKeyNotFound "r" = .rootKeyNotFound "r"
    ∧ removeConfig ⟨[Node.mapping "m" [("a", Node.scalar .string "v")]]⟩ ""
        ⟨"b.c.d", "b", [.str "b", .str "c", .str "d"]⟩ true
      = .ok ⟨[Node.mapping "m" [("a", Node.scalar .string "v")]]⟩ :=
  ⟨(c3_remove_error_behavior ⟨[]⟩ "r" ⟨"k", "k", [.str "k"]⟩ true).1 rfl,
   (c3_remove_error_behavior ⟨[Node.mapping "m" []]⟩ "r" ⟨"k", "k", [.str "k"]⟩ false).2.1
     (.rootKeyNotFound "r") rfl,
   (c3_remove_error_behavior ⟨[Node.mapping "m" [("a", Node.scalar .string "v")]]⟩ ""
       ⟨"b.c.d", "b", [.str "b", .str "c", .str "d"]⟩ true).2.2 "m"
     [("a", Node.scalar .string "v")] [] (.str "d") rfl rfl rfl rfl rfl rfl rfl⟩

/-- Claim C9: the reserved-`secure` guard is evaluated only on the
multi-segment path-mode branch: with `path = false`, or `path = true` and a
single segment, `SetConfig` never returns `SecureKeyReserved`, and succeeds
whenever the document body is a mapping and the root key resolves — even
when the write leaves the target container as a single-entry `secure`
mapping. -/
theorem c9_guard_only_on_multi_segment (rk : String) (pk : ParsedKey) (v : ConfigValue)
    (path : Bool) (hbranch : path = false ∨ (path = true ∧ pk.segments.length = 1)) :
    (∀ f : FileAST, setConfig f rk pk v path ≠ .err .secureKeyReserved)
    ∧ (∀ tok vs ds, rk.length = 0 →
        ∃ g, setConfig ⟨Node.mapping tok vs :: ds⟩ rk pk v path = .ok g)
    ∧ (∀ tok vs ds, rk.length ≠ 0 → containsRootMapping vs rk = true →
        ∃ g, setConfig ⟨Node.mapping tok vs :: ds⟩ rk pk v path = .ok g) := by
  have hok : ∀ tok vs, ∃ n, setOp pk v path (.mapping tok vs) = .ok n := by
    intro tok vs
    rcases hbranch with h | ⟨hp, hl⟩
    · subst h
      exact ⟨_, setOp_false pk v tok vs⟩
    · subst hp
      exact ⟨_, setOp_single pk v tok vs (by simp [hl])⟩
  have hne : ∀ sub e, setOp pk v path sub ≠ .err e := by
    intro sub e hcontra
    cases sub with
    | mapping tok vs =>
        obtain ⟨n, hn⟩ := hok tok vs
        rw [hn] at hcontra
        exact Res.noConfusion hcontra
    | scalar t r => simp [setOp] at hcontra
    | sequence s => simp [setOp] at hcontra
    | mappingValue a b => simp [setOp] at hcontra
  refine ⟨?_, ?_, ?_⟩
  · intro f hcontra
    obtain ⟨docs⟩ := f
    cases docs with
    | nil => simp [setConfig] at hcontra
    | cons body ds =>
        cases body with
        | mapping tok vs =>
            simp only [setConfig] at hcontra
            by_cases hrk : (rk.length == 0) = true
            · rw [if_pos hrk] at hcontra
              simp only [Res.bind_eq_err] at hcontra
              rcases hcontra with h | ⟨b, _, h2⟩
              · exact hne _ _ h
              · simp at h2
            · rw [if_neg hrk] at hcontra
              simp only [Res.bind_eq_err] at hcontra
              rcases hcontra with h | ⟨o, _, h2⟩
              · obtain ⟨n, hn⟩ := updateWalk_err _ vs rk _ h
                exact hne _ _ hn
              · cases o with
                | none => simp at h2
                | some vs2 => simp at h2
        | scalar t r => simp [setConfig] at hcontra
        | sequence s => simp [setConfig] at hcontra
        | mappingValue a b => simp [setConfig] at hcontra
  · intro tok vs ds hrk
    obtain ⟨n, hn⟩ := hok tok vs
    refine ⟨⟨n :: ds⟩, ?_⟩
    simp only [setConfig]
    rw [if_pos (by simp [hrk])]
    simp [hn, Res.bind]
  · intro tok vs ds hrk hfound
    obtain ⟨vs2, hvs2⟩ := updateWalk_found (setOp pk v path) (fun t0 v0 => hok t0 v0) vs rk
      hfound
    refine ⟨⟨Node.mapping tok vs2 :: ds⟩, ?_⟩
    simp only [setConfig]
    rw [if_neg (by simp [hrk])]
    simp [hvs2, Res.bind]

/-- Witness for C9: a single-segment path write of a non-secret value under
the key `secure` leaves the root mapping as the reserved shape, yet
succeeds. -/
theorem c9_witness :
    setConfig ⟨[Node.mapping "m" []]⟩ "" ⟨"secure", "secure", [.str "secure"]⟩ ⟨"v", false⟩
        true ≠ .err .secureKeyReserved
    ∧ ∃ g, setConfig ⟨[Node.mapping "m" []]⟩ "" ⟨"secure", "secure", [.str "secure"]⟩
        ⟨"v", false⟩ true = .ok g :=
  ⟨(c9_guard_only_on_multi_segment "" ⟨"secure", "secure", [.str "secure"]⟩ ⟨"v", false⟩ true
      (Or.inr ⟨rfl, rfl⟩)).1 ⟨[Node.mapping "m" []]⟩,
   (c9_guard_only_on_multi_segment "" ⟨"secure", "secure", [.str "secure"]⟩ ⟨"v", false⟩ true
      (Or.inr ⟨rfl, rfl⟩)).2.1 "m" [] [] rfl⟩

/-- Counterexample to C1 as stated: a bool scalar is NOT classified as
simple (the walk's check covers only `StringType`, `IntegerType`,
`LiteralType` and `FloatType`), so an existing bool value at `a` makes
`Set("", "a.b", ..., true)` fail with a type mismatch instead of being
silently replaced by a fresh mapping. -/
theorem c1_counterexample :
    isSimpleValue (Node.scalar .bool "true") = false
    ∧ walkStep (some (Node.scalar .bool "true")) (.str "b") = .err (.typeMismatchMap "b")
    ∧ setConfig ⟨[Node.mapping "m" [("a", Node.scalar .bool "true")]]⟩ ""
        ⟨"a.b", "a", [.str "a", .str "b"]⟩ ⟨"1", false⟩ true
      = .err (.typeMismatchMap "b") :=
  ⟨rfl, rfl, rfl⟩

/-- Claim C1 (amended): at every walk step the found value is classified
as simple exactly when it is a bare scalar of kind string, integer, float
or literal (bool scalars are NOT simple), or a SecureWrapper; every simple
or absent value is silently replaced by a fresh container of the type the
next segment requires, and an existing value that is neither simple nor a
container of the required type yields the type-mismatch error. -/
theorem c1_simple_classification (n : Node) (i : Int) (s : String) :
    (isSimpleValue n = true ↔
      ((∃ r, n = .scalar .string r) ∨ (∃ r, n = .scalar .integer r)
        ∨ (∃ r, n = .scalar .float r) ∨ (∃ r, n = .scalar .literal r)
        ∨ isSecureValue n = true))
    ∧ walkStep none (.idx i) = .ok (.sequence [], true)
    ∧ walkStep none (.str s) = .ok (.mapping s [], true)
    ∧ (isSimpleValue n = true →
        walkStep (some n) (.idx i) = .ok (.sequence [], true)
        ∧ walkStep (some n) (.str s) = .ok (.mapping s [], true))
    ∧ (isSimpleValue n = false → isSequenceNode n = false →
        walkStep (some n) (.idx i) = .err (.typeMismatchArray i))
    ∧ (isSimpleValue n = false → isMappingNode n = false →
        walkStep (some n) (.str s) = .err (.typeMismatchMap s)) := by
  refine ⟨?_, rfl, rfl, ?_, ?_, ?_⟩
  · cases n with
    | scalar t r => cases t <;> simp [isSimpleValue, isSecureValue]
    | mapping tok vs => simp [isSimpleValue, isSecureValue]
    | sequence vs => simp [isSimpleValue, isSecureValue]
    | mappingValue k2 v2 => simp [isSimpleValue, isSecureValue]
  · intro h
    constructor <;> (simp only [walkStep]; rw [if_pos h])
  · intro h hs
    simp only [walkStep]
    rw [if_neg (by simp [h])]
    cases n with
    | sequence vs => simp [isSequenceNode] at hs
    | scalar t r => rfl
    | mapping tok vs => rfl
    | mappingValue k2 v2 => rfl
  · intro h hm
    simp only [walkStep]
    rw [if_neg (by simp [h])]
    cases n with
    | mapping tok vs => simp [isMappingNode] at hm
    | scalar t r => rfl
    | sequence vs => rfl
    | mappingValue k2 v2 => rfl

/-- Witness for the amended C1: an integer scalar is replaced by a fresh
mapping; a bool scalar is rejected with the type mismatch for both segment
kinds. -/
theorem c1_witness :
    walkStep (some (Node.scalar .integer "5")) (.str "b") = .ok (.mapping "b" [], true)
    ∧ walkStep (some (Node.scalar .bool "x")) (.str "b") = .err (.typeMismatchMap "b")
    ∧ walkStep (some (Node.scalar .bool "x")) (.idx 0) = .err (.typeMismatchArray 0) :=
  ⟨((c1_simple_classification (.scalar .integer "5") 0 "b").2.2.2.1 rfl).2,
   (c1_simple_classification (.scalar .bool "x") 0 "b").2.2.2.2.2 rfl rfl,
   (c1_simple_classification (.scalar .bool "x") 0 "b").2.2.2.2.1 rfl rfl⟩

/-- Counterexample to C2 as stated: the guard never consults the caller's
secret intent.  A write that explicitly requests secrecy
(`value.Secure() = true`) to path `a.secure` on an empty mapping leaves the
final cursor as a single-entry `secure` mapping and IS rejected with
`SecureKeyReserved`. -/
theorem c2_counterexample :
    (⟨"p", true⟩ : ConfigValue).secure = true
    ∧ setConfig ⟨[Node.mapping "m" []]⟩ "" ⟨"a.secure", "a", [.str "a", .str "secure"]⟩
        ⟨"p", true⟩ true = .err .secureKeyReserved :=
  ⟨rfl, rfl⟩

/-- Claim C2 (amended): a multi-segment path-mode `Set` (on a
mapping-bodied document, empty root key) fails with `SecureKeyReserved` if
and only if the walk and final write succeed and leave the final cursor
container satisfying `isSecureValue` (the boolean that `setPath` reports);
the caller's secret intent is not consulted. -/
theorem c2_secure_guard (tok : String) (vs : List (String × Node)) (ds : List Node)
    (pk : ParsedKey) (v : ConfigValue) (hlen : (pk.segments.length == 1) = false) :
    setConfig ⟨Node.mapping tok vs :: ds⟩ "" pk v true = .err .secureKeyReserved
      ↔ ∃ n, setPath (Node.mapping tok vs) (.str pk.configKey) pk.segments.tail
          (newValueNode (adjustObjectValue v true) v.secure) true = .ok (n, true) := by
  simp only [setConfig]
  rw [if_pos (by rfl)]
  simp only [setOp]
  rw [if_neg (by simp), if_neg (by simp [hlen])]
  cases hsp : setPath (Node.mapping tok vs) (.str pk.configKey) pk.segments.tail
      (newValueNode (adjustObjectValue v true) v.secure) true with
  | ok ns =>
      obtain ⟨n2, sec⟩ := ns
      cases sec with
      | true => simp [Res.bind]
      | false => simp [Res.bind]
  | err e =>
      simp only [Res.bind]
      constructor
      · intro h
        injection h with h2
        have := setPath_err pk.segments.tail (Node.mapping tok vs) (.str pk.configKey)
          (newValueNode (adjustObjectValue v true) v.secure) true e hsp
        rw [h2] at this
        simp [isWalkErr] at this
      · intro h
        obtain ⟨n, hn⟩ := h
        exact absurd hn (by simp)
  | fatal m => simp [Res.bind]

/-- Witness for the amended C2: an ordinary (non-secret) write to
`a.secure` on an empty mapping collapses to the reserved shape and is
rejected. -/
theorem c2_witness :
    setConfig ⟨[Node.mapping "m" []]⟩ "" ⟨"a.secure", "a", [.str "a", .str "secure"]⟩
        ⟨"p", false⟩ true = .err .secureKeyReserved :=
  (c2_secure_guard "m" [] [] ⟨"a.secure", "a", [.str "a", .str "secure"]⟩ ⟨"p", false⟩
      rfl).mpr
    ⟨Node.mapping "m" [("a", Node.mapping "secure" [("secure", Node.scalar .string "p")])],
      rfl⟩

/-- Counterexample to C6 as stated: on a non-empty document whose top-level
body is not a mapping, `SetConfig` panics on the type assertion instead of
failing with `RootKeyNotFound`, although the root has no member named
`"a"` with a mapping value. -/
theorem c6_counterexample :
    setConfig ⟨[Node.scalar .string "s"]⟩ "a" ⟨"k", "k", [.str "k"]⟩ ⟨"v", false⟩ false
      = .fatal interfaceConversionMsg
    ∧ setConfig ⟨[Node.scalar .string "s"]⟩ "a" ⟨"k", "k", [.str "k"]⟩ ⟨"v", false⟩ false
      ≠ .err (.rootKeyNotFound "a") := by
  refine ⟨rfl, ?_⟩
  intro h
  rw [show setConfig ⟨[Node.scalar .string "s"]⟩ "a" ⟨"k", "k", [.str "k"]⟩ ⟨"v", false⟩ false
      = .fatal interfaceConversionMsg from rfl] at h
  exact Res.noConfusion h

/-- Claim C6 (amended): `Set` on an empty document fails with the
empty-document error; and on a non-empty document whose top-level body is a
mapping, with a non-empty root key, it fails with `RootKeyNotFound` exactly
when that mapping has no direct member named `rootKey` whose value is a
mapping (an absent key and a key bound to a non-mapping value alike). -/
theorem c6_root_resolution :
    (∀ (rk : String) (pk : ParsedKey) (v : ConfigValue) (path : Bool),
        setConfig ⟨[]⟩ rk pk v path = .err .emptyDocument)
    ∧ (∀ (tok : String) (vs : List (String × Node)) (ds : List Node) (rk : String)
        (pk : ParsedKey) (v : ConfigValue) (path : Bool), rk.length ≠ 0 →
        (setConfig ⟨Node.mapping tok vs :: ds⟩ rk pk v path = .err (.rootKeyNotFound rk)
          ↔ containsRootMapping vs rk = false)) := by
  refine ⟨fun rk pk v path => rfl, ?_⟩
  intro tok vs ds rk pk v path hrk
  simp only [setConfig]
  rw [if_neg (by simp [hrk])]
  constructor
  · intro h
    simp only [Res.bind_eq_err] at h
    rcases h with h | ⟨o, ho, h2⟩
    · obtain ⟨n, hn⟩ := updateWalk_err _ vs rk _ h
      rcases setOp_err pk v path n _ hn with h3 | h3 <;> simp [isWalkErr] at h3
    · cases o with
      | none => exact updateWalk_none _ vs rk ho
      | some vs2 => simp at h2
  · intro h
    rw [updateWalk_of_not_found (setOp pk v path) vs rk h]
    rfl

/-- Witness for the amended C6: the empty-document error, and the concrete
root-key failure when the only root entry has a different name. -/
theorem c6_witness :
    setConfig ⟨[]⟩ "r" ⟨"k", "k", []⟩ ⟨"v", false⟩ false = .err .emptyDocument
    ∧ setConfig ⟨[Node.mapping "m" [("other", Node.mapping "t" [])]]⟩ "r" ⟨"k", "k", []⟩
        ⟨"v", false⟩ false = .err (.rootKeyNotFound "r") :=
  ⟨c6_root_resolution.1 "r" ⟨"k", "k", []⟩ ⟨"v", false⟩ false,
   (c6_root_resolution.2 "m" [("other", Node.mapping "t" [])] [] "r" ⟨"k", "k", []⟩
       ⟨"v", false⟩ false (by decide)).mpr rfl⟩

end PulumiAst
